import Mathlib

/-!
# Falaclient: message flags and the SMTP manager

A shallow embedding of `src/flag.cpp` and of the data declared in
`src/smtpmanager.h`.  A `uint32_t` is a natural number below `2 ^ 32`.
The constant `Flag::Seen` is declared in `flag.h`; it is a parameter of the
functions that use it.  The header declares the member functions of
`SmtpManager` and their bodies are in no source file here: they are modelled
from the specification, as steps on the state of a started manager.
-/

namespace Flag

/-- Bitwise complement of a `uint32_t` (the C++ operator `~`). -/
def not32 (x : Nat) : Nat := (x ^^^ 0xFFFFFFFF) % 2 ^ 32

/-- `Flag::GetSeen`: `return (p_Flag & Seen);`, the integer converted to
`bool` (non-zero is `true`). -/
def GetSeen (Seen p_Flag : Nat) : Bool := (p_Flag &&& Seen) != 0

/-- `Flag::SetSeen`: `p_Flags = p_Seen ? (p_Flags | Seen) : (p_Flags & ~Seen);`
the result is the new value of the reference argument `p_Flags`. -/
def SetSeen (Seen p_Flags : Nat) (p_Seen : Bool) : Nat :=
  (if p_Seen then p_Flags ||| Seen else p_Flags &&& not32 Seen) % 2 ^ 32

end Flag

/-- Modelled from the spec: the enum `SmtpStatus` of `smtp.h`, a header that
is not among the sources.  The spec names the outcomes Ok and Failed and
leaves the remaining ones to the executor. -/
inductive SmtpStatus where
  | SmtpStatusOk
  | SmtpStatusFailed
  | SmtpStatusOther (code : Nat)
  deriving DecidableEq

namespace SmtpManager

/-- `SmtpManager::Action`, with the default member initialisers of the header;
a `std::string` member without an initialiser is the empty string. -/
structure Action where
  m_IsSendMessage : Bool := false
  m_IsCreateMessage : Bool := false
  m_IsSendCreatedMessage : Bool := false
  m_From : String := ""
  m_To : String := ""
  m_Cc : String := ""
  m_Bcc : String := ""
  m_Att : String := ""
  m_Subject : String := ""
  m_Body : String := ""
  m_HtmlBody : String := ""
  m_RefMsgId : String := ""
  m_ComposeTempDirectory : String := ""
  m_ComposeDraftUid : Nat := 0
  m_CreatedMsg : String := ""
  m_FormatFlowed : Bool := false
  deriving DecidableEq

/-- `SmtpManager::Result`, with the default member initialisers of the header. -/
structure Result where
  m_SmtpStatus : SmtpStatus := SmtpStatus.SmtpStatusFailed
  m_Message : String := ""
  m_Action : Action := {}
  deriving DecidableEq

/-- Number of discriminant booleans of an Action that are true. -/
def Action.activeDiscriminants (a : Action) : Nat :=
  a.m_IsSendMessage.toNat + a.m_IsCreateMessage.toNat + a.m_IsSendCreatedMessage.toNat

/-- An Action is well-formed when exactly one discriminant is active. -/
def Action.WellFormed (a : Action) : Bool := a.activeDiscriminants == 1

/-- Modelled from the spec: the session executor, an external collaborator
that "consumes an Action" and "returns a status/diagnostic pair"; its
connection state is the type `σ`. -/
abbrev Executor (σ : Type) := σ → Action → SmtpStatus × String × σ

/-- Modelled from the spec: an element of the ActionQueue.  `AsyncAction`
pushes the Action alone; `SyncAction` "pushes the Action tagged with a private
one-shot completion signal".  The header declares the queue as
`std::deque<Action>`: an entry without a signal is the Action alone. -/
structure Entry where
  m_Action : Action
  m_Signal : Option Nat := none
  deriving DecidableEq

/-- Modelled from the spec: an invocation of one of the two callbacks held by
the manager (`m_StatusHandler` with the new flag bitmask, `m_ResultHandler`
with a Result). -/
inductive Callback where
  | status (p_Flags : Nat)
  | result (p_Result : Result)
  deriving DecidableEq

/-- Modelled from the spec: the state of a started manager: the queue
`m_Actions` (front first), the status bitmask, the state of the session
executor, the callback invocations made so far (oldest first), the completion
signals fired so far with their Results, and the next unused signal. -/
structure State (σ : Type) where
  m_Actions : List Entry := []
  m_Flags : Nat := 0
  m_Session : σ
  m_Calls : List Callback := []
  m_Signalled : List (Nat × Result) := []
  m_NextSignal : Nat := 0

/-- Modelled from the spec: `SmtpManager::PerformAction`, whose body is not
among the sources: the worker delegates "execution to the session executor"
and builds a Result holding the status, the diagnostic text and "the
originating Action". -/
def PerformAction {σ : Type} (exec : Executor σ) (sess : σ) (p_Action : Action) :
    Result × σ :=
  let out := exec sess p_Action
  ({ m_SmtpStatus := out.1, m_Message := out.2.1, m_Action := p_Action }, out.2.2)

/-- Modelled from the spec: `SmtpManager::SetStatus`, whose body is not among
the sources: sets the given bits of the status bitmask and invokes the status
callback with the new bitmask. -/
def SetStatus {σ : Type} (s : State σ) (p_Flags : Nat) : State σ :=
  let flags := Flag.SetSeen p_Flags s.m_Flags true
  { s with m_Flags := flags, m_Calls := s.m_Calls ++ [Callback.status flags] }

/-- Modelled from the spec: `SmtpManager::ClearStatus`, whose body is not
among the sources: clears the given bits of the status bitmask and invokes the
status callback with the new bitmask. -/
def ClearStatus {σ : Type} (s : State σ) (p_Flags : Nat) : State σ :=
  let flags := Flag.SetSeen p_Flags s.m_Flags false
  { s with m_Flags := flags, m_Calls := s.m_Calls ++ [Callback.status flags] }

/-- Modelled from the spec: one iteration of the worker loop of
`SmtpManager::Process`, whose body is not among the sources.  With an empty
queue the worker stays blocked.  Otherwise it takes the front Action, sets the
busy bit and invokes the status callback, executes the Action, builds the
Result, clears the busy bit and invokes the status callback again, and
delivers the Result: through the result callback for an Action of
`AsyncAction`, through the completion signal for one of `SyncAction`. -/
def ProcessStep {σ : Type} (exec : Executor σ) (busy : Nat) (s : State σ) : State σ :=
  match s.m_Actions with
  | [] => s
  | e :: rest =>
    let s1 := SetStatus { s with m_Actions := rest } busy
    let out := PerformAction exec s1.m_Session e.m_Action
    let s2 := ClearStatus { s1 with m_Session := out.2 } busy
    match e.m_Signal with
    | none => { s2 with m_Calls := s2.m_Calls ++ [Callback.result out.1] }
    | some sig => { s2 with m_Signalled := s2.m_Signalled ++ [(sig, out.1)] }

/-- Modelled from the spec: `SmtpManager::AsyncAction`, whose body is not
among the sources: "validates the Action's discriminant is well-formed
(exactly one variant active), pushes to the queue, returns immediately"; a
malformed Action is a precondition failure and is not queued. -/
def AsyncAction {σ : Type} (s : State σ) (p_Action : Action) : Except String (State σ) :=
  if p_Action.WellFormed then
    Except.ok { s with m_Actions := s.m_Actions ++ [{ m_Action := p_Action }] }
  else
    Except.error "malformed action"

/-- Modelled from the spec: the first half of `SmtpManager::SyncAction`: it
"pushes the Action tagged with a private one-shot completion signal".  The
result is the signal and the new state. -/
def SyncPush {σ : Type} (s : State σ) (p_Action : Action) : Except String (Nat × State σ) :=
  if p_Action.WellFormed then
    Except.ok (s.m_NextSignal,
      { s with
        m_Actions := s.m_Actions ++ [{ m_Action := p_Action, m_Signal := some s.m_NextSignal }],
        m_NextSignal := s.m_NextSignal + 1 })
  else
    Except.error "malformed action"

/-- Modelled from the spec: a caller blocked in `SmtpManager::SyncAction`
looks for its completion signal; a fired signal gives its Result and is taken
out of the state (the signal is one-shot). -/
def takeSignal {σ : Type} (sig : Nat) (s : State σ) : Option (Result × State σ) :=
  match s.m_Signalled.find? (fun p => p.1 == sig) with
  | some p => some (p.2, { s with m_Signalled := s.m_Signalled.filter (fun p => p.1 != sig) })
  | none => none

/-- Modelled from the spec: the second half of `SmtpManager::SyncAction`: it
"blocks the calling thread until the matching Result is produced; returns it
directly".  While the caller is blocked the worker runs; `fuel` bounds the
number of worker iterations waited for. -/
def awaitSignal {σ : Type} (exec : Executor σ) (busy : Nat) (sig : Nat) :
    Nat → State σ → Option (Result × State σ)
  | 0, s => takeSignal sig s
  | fuel + 1, s =>
    match takeSignal sig s with
    | some out => some out
    | none => awaitSignal exec busy sig fuel (ProcessStep exec busy s)

/-- Modelled from the spec: `SmtpManager::SyncAction`, whose body is not
among the sources: push the tagged Action, then wait for its completion
signal; the worker needs at most one iteration per queued Action. -/
def SyncAction {σ : Type} (exec : Executor σ) (busy : Nat) (s : State σ)
    (p_Action : Action) : Except String (Result × State σ) :=
  match SyncPush s p_Action with
  | Except.error e => Except.error e
  | Except.ok (sig, s1) =>
    match awaitSignal exec busy sig s1.m_Actions.length s1 with
    | some out => Except.ok out
    | none => Except.error "completion signal not fired"

/-- Modelled from the spec: what can happen to a started manager, one step at
a time under the queue lock: a call of `AsyncAction`, a thread entering
`SyncAction` (it pushes and blocks), a blocked `SyncAction` caller returning
with its Result, one iteration of the worker loop. -/
inductive Event where
  | asyncAction (p_Action : Action)
  | syncPush (p_Action : Action)
  | syncReturn (sig : Nat)
  | process
  deriving DecidableEq

/-- The state after one event; a rejected submission leaves the state as it
was. -/
def step {σ : Type} (exec : Executor σ) (busy : Nat) (s : State σ) : Event → State σ
  | Event.asyncAction a =>
    match AsyncAction s a with
    | Except.ok s1 => s1
    | Except.error _ => s
  | Event.syncPush a =>
    match SyncPush s a with
    | Except.ok out => out.2
    | Except.error _ => s
  | Event.syncReturn sig =>
    match takeSignal sig s with
    | some out => out.2
    | none => s
  | Event.process => ProcessStep exec busy s

/-- The state after a sequence of events, in the order in which the queue
lock serialises them. -/
def run {σ : Type} (exec : Executor σ) (busy : Nat) (s : State σ) (es : List Event) :
    State σ :=
  es.foldl (step exec busy) s

/-- Modelled from the spec: the manager right after `SmtpManager::Start`,
whose body is not among the sources: nothing queued, no flag set, no callback
invoked yet. -/
def init {σ : Type} (sess : σ) : State σ := { m_Session := sess }

/-- Every completion signal in the queue or already fired was handed out
before: it is below the next unused signal. -/
def Fresh {σ : Type} (s : State σ) : Prop :=
  (∀ e ∈ s.m_Actions, ∀ n, e.m_Signal = some n → n < s.m_NextSignal) ∧
  (∀ p ∈ s.m_Signalled, p.1 < s.m_NextSignal)

/-- A stub executor that always succeeds and keeps no state. -/
def stubExecutor : Executor Unit := fun _ _ => (SmtpStatus.SmtpStatusOk, "", ())

end SmtpManager

namespace Flag

theorem testBit_not32 (x i : Nat) :
    (not32 x).testBit i = (decide (i < 32) && !x.testBit i) := by
  unfold not32
  rw [Nat.testBit_mod_two_pow, Nat.testBit_xor]
  have h : (0xFFFFFFFF : Nat) = 2 ^ 32 - 1 := by norm_num
  rw [h, Nat.testBit_two_pow_sub_one]
  by_cases hi : i < 32 <;> simp [hi]

theorem testBit_u32_high {x i : Nat} (hx : x < 2 ^ 32) (hi : 32 ≤ i) :
    x.testBit i = false :=
  Nat.testBit_lt_two_pow (lt_of_lt_of_le hx (Nat.pow_le_pow_right (by decide) hi))

theorem testBit_SetSeen {Seen f : Nat} (hS : Seen < 2 ^ 32) (hf : f < 2 ^ 32)
    (b : Bool) (i : Nat) :
    (SetSeen Seen f b).testBit i = if Seen.testBit i then b else f.testBit i := by
  unfold SetSeen
  rw [Nat.testBit_mod_two_pow]
  by_cases hi : i < 32
  · cases b <;> simp [hi, testBit_not32] <;> cases Seen.testBit i <;> simp
  · have h1 := testBit_u32_high hS (Nat.le_of_not_lt hi)
    have h2 := testBit_u32_high hf (Nat.le_of_not_lt hi)
    simp [hi, h1, h2]

theorem SetSeen_lt (Seen f : Nat) (b : Bool) : SetSeen Seen f b < 2 ^ 32 :=
  Nat.mod_lt _ (by decide)

theorem GetSeen_eq_true_iff (Seen f : Nat) :
    GetSeen Seen f = true ↔ ∃ i, f.testBit i = true ∧ Seen.testBit i = true := by
  unfold GetSeen
  constructor
  · intro h
    have hne : f &&& Seen ≠ 0 := by simpa using h
    obtain ⟨i, hi⟩ := Nat.ne_zero_implies_bit_true hne
    rw [Nat.testBit_and] at hi
    exact ⟨i, by simpa using hi⟩
  · rintro ⟨i, h1, h2⟩
    have hne : f &&& Seen ≠ 0 := by
      intro h0
      have : (f &&& Seen).testBit i = true := by rw [Nat.testBit_and, h1, h2]; rfl
      rw [h0] at this
      simp at this
    simpa using hne

/-- C1: reading the Seen flag right after writing it gives the value written,
for every non-zero 32-bit constant `Seen` (in particular every single bit)
and every 32-bit flags value. -/
theorem GetSeen_SetSeen (Seen f : Nat) (b : Bool) (hS : Seen < 2 ^ 32)
    (hS0 : Seen ≠ 0) (hf : f < 2 ^ 32) :
    GetSeen Seen (SetSeen Seen f b) = b := by
  cases b
  · rw [Bool.eq_false_iff]
    intro h
    obtain ⟨i, h1, h2⟩ := (GetSeen_eq_true_iff _ _).1 h
    rw [testBit_SetSeen hS hf, h2] at h1
    simp at h1
  · rw [GetSeen_eq_true_iff]
    obtain ⟨i, hi⟩ := Nat.ne_zero_implies_bit_true hS0
    exact ⟨i, by rw [testBit_SetSeen hS hf, hi]; rfl, hi⟩

theorem GetSeen_SetSeen_witness :
    (1 < 2 ^ 32 ∧ 1 ≠ 0 ∧ 6 < 2 ^ 32) ∧ GetSeen 1 (SetSeen 1 6 true) = true :=
  ⟨by decide, GetSeen_SetSeen 1 6 true (by decide) (by decide) (by decide)⟩

/-- C2: SetSeen sets the Seen bit when enabled and clears it otherwise: the
new flags value is `f | Seen` for `true` and `f & ~Seen` for `false`, where
`~Seen` is the 32-bit complement `0xFFFFFFFF - Seen`; bit by bit, the bits of
`Seen` take the value of `enabled` and every other bit keeps that of `f`. -/
theorem SetSeen_sets_or_clears (Seen f : Nat) (hS : Seen < 2 ^ 32) (hf : f < 2 ^ 32) :
    SetSeen Seen f true = f ||| Seen ∧
    SetSeen Seen f false = f &&& not32 Seen ∧
    not32 Seen = 2 ^ 32 - 1 - Seen ∧
    ∀ (enabled : Bool) (i : Nat),
      (SetSeen Seen f enabled).testBit i = if Seen.testBit i then enabled else f.testBit i := by
  refine ⟨?_, ?_, ?_, fun b i => testBit_SetSeen hS hf b i⟩
  · exact Nat.mod_eq_of_lt (Nat.or_lt_two_pow hf hS)
  · exact Nat.mod_eq_of_lt (lt_of_le_of_lt Nat.and_le_left hf)
  · apply Nat.eq_of_testBit_eq
    intro i
    have h : 2 ^ 32 - 1 - Seen = 2 ^ 32 - (Seen + 1) := by omega
    rw [testBit_not32, h, Nat.testBit_two_pow_sub_succ hS]

theorem SetSeen_sets_or_clears_witness :
    (1 < 2 ^ 32 ∧ 7 < 2 ^ 32) ∧ SetSeen 1 7 true = 7 ||| 1 ∧
    SetSeen 1 7 false = 7 &&& not32 1 ∧
    not32 1 = 2 ^ 32 - 1 - 1 ∧
    ∀ (enabled : Bool) (i : Nat),
      (SetSeen 1 7 enabled).testBit i = if Nat.testBit 1 i then enabled else Nat.testBit 7 i :=
  ⟨by decide, SetSeen_sets_or_clears 1 7 (by decide) (by decide)⟩

theorem GetSeen_two_pow (k f : Nat) : GetSeen (2 ^ k) f = f.testBit k := by
  cases hk : f.testBit k
  · rw [Bool.eq_false_iff]
    intro h
    obtain ⟨i, h1, h2⟩ := (GetSeen_eq_true_iff _ _).1 h
    rw [Nat.testBit_two_pow] at h2
    have : k = i := by simpa using h2
    subst this
    rw [hk] at h1
    exact Bool.noConfusion h1
  · rw [GetSeen_eq_true_iff]
    exact ⟨k, hk, by simp [Nat.testBit_two_pow]⟩

/-- C3: GetSeen is a bit test on its argument alone: it returns true exactly
when `f & Seen` is non-zero, and for a single-bit constant `Seen = 2 ^ k` its
result is bit `k` of `f`; the result is a value computed from `f`, which is
passed by value and not written. -/
theorem GetSeen_bit_test (Seen f : Nat) :
    (GetSeen Seen f = true ↔ f &&& Seen ≠ 0) ∧
    (∀ k : Nat, GetSeen (2 ^ k) f = f.testBit k) := by
  constructor
  · unfold GetSeen
    simp
  · exact fun k => GetSeen_two_pow k f

/-- C4: SetSeen changes no bit outside `Seen`: masking the new and the old
flags value with `~Seen` gives the same number, and every bit position where
`Seen` has a zero keeps its value. -/
theorem SetSeen_frame (Seen f : Nat) (b : Bool) (hS : Seen < 2 ^ 32) (hf : f < 2 ^ 32) :
    SetSeen Seen f b &&& not32 Seen = f &&& not32 Seen ∧
    ∀ i : Nat, Seen.testBit i = false → (SetSeen Seen f b).testBit i = f.testBit i := by
  constructor
  · apply Nat.eq_of_testBit_eq
    intro i
    rw [Nat.testBit_and, Nat.testBit_and, testBit_SetSeen hS hf, testBit_not32]
    cases Seen.testBit i <;> simp
  · intro i hi
    rw [testBit_SetSeen hS hf, hi]
    rfl

theorem SetSeen_frame_witness :
    (1 < 2 ^ 32 ∧ 6 < 2 ^ 32) ∧
    (SetSeen 1 6 true &&& not32 1 = 6 &&& not32 1 ∧
     ∀ i : Nat, Nat.testBit 1 i = false → (SetSeen 1 6 true).testBit i = Nat.testBit 6 i) :=
  ⟨by decide, SetSeen_frame 1 6 true (by decide) (by decide)⟩

/-- C8: SetSeen is last-write-wins: writing `a` and then `b` gives the same
flags value as writing `b` alone, and so writing `b` twice is the same as
writing it once. -/
theorem SetSeen_last_write_wins (Seen f : Nat) (a b : Bool) (hS : Seen < 2 ^ 32)
    (hf : f < 2 ^ 32) :
    SetSeen Seen (SetSeen Seen f a) b = SetSeen Seen f b ∧
    SetSeen Seen (SetSeen Seen f b) b = SetSeen Seen f b := by
  have key : ∀ a b : Bool, SetSeen Seen (SetSeen Seen f a) b = SetSeen Seen f b := by
    intro a b
    apply Nat.eq_of_testBit_eq
    intro i
    rw [testBit_SetSeen hS (SetSeen_lt Seen f a), testBit_SetSeen hS hf,
      testBit_SetSeen hS hf]
    cases Seen.testBit i <;> simp
  exact ⟨key a b, key b b⟩

theorem SetSeen_last_write_wins_witness :
    (1 < 2 ^ 32 ∧ 6 < 2 ^ 32) ∧
    (SetSeen 1 (SetSeen 1 6 true) false = SetSeen 1 6 false ∧
     SetSeen 1 (SetSeen 1 6 false) false = SetSeen 1 6 false) :=
  ⟨by decide, SetSeen_last_write_wins 1 6 true false (by decide) (by decide)⟩

/-- C9: for a single-bit constant `Seen = 2 ^ k` with `k < 32`, writing back
the value just read leaves every 32-bit flags value unchanged. -/
theorem SetSeen_GetSeen_id (k f : Nat) (hk : k < 32) (hf : f < 2 ^ 32) :
    SetSeen (2 ^ k) f (GetSeen (2 ^ k) f) = f := by
  have hS : 2 ^ k < 2 ^ 32 := Nat.pow_lt_pow_right (by decide) hk
  apply Nat.eq_of_testBit_eq
  intro i
  rw [testBit_SetSeen hS hf, GetSeen_two_pow k f, Nat.testBit_two_pow]
  by_cases h : k = i
  · subst h
    simp
  · simp [h]

theorem SetSeen_GetSeen_id_witness :
    (0 < 32 ∧ 7 < 2 ^ 32) ∧ SetSeen (2 ^ 0) 7 (GetSeen (2 ^ 0) 7) = 7 :=
  ⟨by decide, SetSeen_GetSeen_id 0 7 (by decide) (by decide)⟩

end Flag

namespace SmtpManager

section Queue

variable {σ : Type} (exec : Executor σ) (busy : Nat)

theorem takeSignal_state {sig : Nat} {s : State σ} {out : Result × State σ}
    (h : takeSignal sig s = some out) :
    out.2 = { s with m_Signalled := s.m_Signalled.filter (fun p => p.1 != sig) } := by
  unfold takeSignal at h
  cases hf : s.m_Signalled.find? (fun p => p.1 == sig) with
  | none => rw [hf] at h; exact Option.noConfusion h
  | some p =>
    rw [hf] at h
    simp only [Option.some.injEq] at h
    rw [← h]

theorem ProcessStep_cons (s : State σ) (e : Entry) (rest : List Entry)
    (h : s.m_Actions = e :: rest) :
    (ProcessStep exec busy s).m_Actions = rest ∧
    (ProcessStep exec busy s).m_NextSignal = s.m_NextSignal ∧
    ∃ r : Result, r.m_Action = e.m_Action ∧
      (ProcessStep exec busy s).m_Signalled = s.m_Signalled ++
        (match e.m_Signal with
          | none => []
          | some sig => [(sig, r)]) := by
  unfold ProcessStep
  rw [h]
  cases hs : e.m_Signal with
  | none =>
    exact ⟨by simp [SetStatus, ClearStatus, hs], by simp [SetStatus, ClearStatus, hs],
      (PerformAction exec s.m_Session e.m_Action).1, rfl,
      by simp [SetStatus, ClearStatus, hs]⟩
  | some sig =>
    exact ⟨by simp [SetStatus, ClearStatus, hs], by simp [SetStatus, ClearStatus, hs],
      (PerformAction exec s.m_Session e.m_Action).1, rfl,
      by simp [SetStatus, ClearStatus, hs]⟩

theorem ProcessStep_nil (s : State σ) (h : s.m_Actions = []) :
    ProcessStep exec busy s = s := by
  unfold ProcessStep
  rw [h]

theorem Fresh_init (sess : σ) : Fresh (init sess) := by
  constructor <;> simp [init]

theorem Fresh_ProcessStep (s : State σ) (hs : Fresh s) : Fresh (ProcessStep exec busy s) := by
  cases h : s.m_Actions with
  | nil => rw [ProcessStep_nil exec busy s h]; exact hs
  | cons e rest =>
    obtain ⟨h1, h2, r, -, h3⟩ := ProcessStep_cons exec busy s e rest h
    obtain ⟨hq, hsig⟩ := hs
    constructor
    · intro e1 he1 n hn
      rw [h2]
      rw [h1] at he1
      exact hq e1 (by rw [h]; exact List.mem_cons_of_mem _ he1) n hn
    · intro p hp
      rw [h2]
      rw [h3, List.mem_append] at hp
      rcases hp with hp | hp
      · exact hsig p hp
      · cases he : e.m_Signal with
        | none => rw [he] at hp; simp at hp
        | some sig =>
          rw [he] at hp
          simp only [List.mem_singleton] at hp
          rw [hp]
          exact hq e (by rw [h]; exact List.mem_cons_self _ _) sig he

theorem Fresh_step (s : State σ) (hs : Fresh s) (e : Event) : Fresh (step exec busy s e) := by
  obtain ⟨hq, hsig⟩ := hs
  cases e with
  | asyncAction a =>
    by_cases hw : a.WellFormed = true
    · simp only [step, AsyncAction, hw, if_true]
      constructor
      · intro e1 he1 n hn
        simp only [List.mem_append, List.mem_singleton] at he1
        rcases he1 with he1 | he1
        · exact hq e1 he1 n hn
        · rw [he1] at hn
          exact Option.noConfusion hn
      · exact hsig
    · simp only [step, AsyncAction, hw]
      exact ⟨hq, hsig⟩
  | syncPush a =>
    by_cases hw : a.WellFormed = true
    · simp only [step, SyncPush, hw, if_true]
      constructor
      · intro e1 he1 n hn
        simp only [List.mem_append, List.mem_singleton] at he1
        rcases he1 with he1 | he1
        · exact Nat.lt_succ_of_lt (hq e1 he1 n hn)
        · rw [he1] at hn
          simp only [Option.some.injEq] at hn
          simp only
          omega
      · intro p hp
        exact Nat.lt_succ_of_lt (hsig p hp)
    · simp only [step, SyncPush, hw]
      exact ⟨hq, hsig⟩
  | syncReturn sig =>
    simp only [step]
    cases h : takeSignal sig s with
    | none => exact ⟨hq, hsig⟩
    | some out =>
      simp only [takeSignal_state h]
      exact ⟨hq, fun p hp => hsig p (List.mem_of_mem_filter hp)⟩
  | process => exact Fresh_ProcessStep exec busy s ⟨hq, hsig⟩

theorem Fresh_run (s : State σ) (hs : Fresh s) (es : List Event) :
    Fresh (run exec busy s es) := by
  induction es generalizing s with
  | nil => exact hs
  | cons e es ih => exact ih (step exec busy s e) (Fresh_step exec busy s hs e)

theorem takeSignal_none (sig : Nat) (s : State σ) (h : ∀ p ∈ s.m_Signalled, p.1 ≠ sig) :
    takeSignal sig s = none := by
  unfold takeSignal
  have : s.m_Signalled.find? (fun p => p.1 == sig) = none := by
    rw [List.find?_eq_none]
    intro p hp
    simpa using h p hp
  rw [this]

theorem takeSignal_last (sig : Nat) (r : Result) (s : State σ) (l : List (Nat × Result))
    (hl : s.m_Signalled = l ++ [(sig, r)]) (h : ∀ p ∈ l, p.1 ≠ sig) :
    ∃ s1, takeSignal sig s = some (r, s1) := by
  unfold takeSignal
  have h1 : l.find? (fun p => p.1 == sig) = none := by
    rw [List.find?_eq_none]
    intro p hp
    simpa using h p hp
  have : s.m_Signalled.find? (fun p => p.1 == sig) = some (sig, r) := by
    rw [hl, List.find?_append, h1]
    simp
  rw [this]
  exact ⟨_, rfl⟩

theorem awaitSignal_found (A : Action) (sig : Nat) (q : List Entry) :
    ∀ s : State σ, s.m_Actions = q ++ [{ m_Action := A, m_Signal := some sig }] →
      (∀ e ∈ q, e.m_Signal ≠ some sig) → (∀ p ∈ s.m_Signalled, p.1 ≠ sig) →
      ∃ r s1, awaitSignal exec busy sig (q.length + 1) s = some (r, s1) ∧ r.m_Action = A := by
  induction q with
  | nil =>
    intro s hq _ hsig
    obtain ⟨-, -, r, hr, h3⟩ := ProcessStep_cons exec busy s _ [] hq
    obtain ⟨s1, hs1⟩ := takeSignal_last sig r (ProcessStep exec busy s) s.m_Signalled h3 hsig
    refine ⟨r, s1, ?_, hr⟩
    simp only [List.length_nil, awaitSignal, takeSignal_none sig s hsig]
    exact hs1
  | cons e q ih =>
    intro s hq he hsig
    obtain ⟨h1, -, r, -, h3⟩ := ProcessStep_cons exec busy s e _ hq
    have hsig1 : ∀ p ∈ (ProcessStep exec busy s).m_Signalled, p.1 ≠ sig := by
      intro p hp
      rw [h3, List.mem_append] at hp
      rcases hp with hp | hp
      · exact hsig p hp
      · cases hes : e.m_Signal with
        | none => rw [hes] at hp; simp at hp
        | some n =>
          rw [hes] at hp
          simp only [List.mem_singleton] at hp
          rw [hp]
          intro hn
          exact he e (List.mem_cons_self _ _) (by rw [hes, ← hn])
    obtain ⟨r1, s1, hr1, hA⟩ := ih (ProcessStep exec busy s) h1
      (fun e1 he1 => he e1 (List.mem_cons_of_mem _ he1)) hsig1
    refine ⟨r1, s1, ?_, hA⟩
    simp only [List.length_cons, awaitSignal, takeSignal_none sig s hsig]
    exact hr1

theorem SyncAction_of_Fresh (s : State σ) (hs : Fresh s) (A : Action)
    (hA : A.WellFormed = true) :
    ∃ r s1, SyncAction exec busy s A = Except.ok (r, s1) ∧ r.m_Action = A := by
  obtain ⟨hq, hsig⟩ := hs
  obtain ⟨r, s1, h, hr⟩ := awaitSignal_found exec busy A s.m_NextSignal s.m_Actions
    { s with
      m_Actions := s.m_Actions ++ [{ m_Action := A, m_Signal := some s.m_NextSignal }],
      m_NextSignal := s.m_NextSignal + 1 } rfl
    (fun e he hn => Nat.lt_irrefl _ (hq e he _ hn))
    (fun p hp hn => Nat.lt_irrefl _ (hn ▸ hsig p hp))
  refine ⟨r, s1, ?_, hr⟩
  simp only [SyncAction, SyncPush, hA, if_true, List.length_append, List.length_singleton]
  rw [h]

/-- C6: in a started manager, whatever was submitted and processed before,
`SyncAction` of a well-formed Action returns a Result, and the `m_Action` of
that Result is the Action given, equal in every field. -/
theorem SyncAction_returns_action (sess : σ) (es : List Event) (A : Action)
    (hA : A.WellFormed = true) :
    ∃ r s1, SyncAction exec busy (run exec busy (init sess) es) A = Except.ok (r, s1) ∧
      r.m_Action = A :=
  SyncAction_of_Fresh exec busy _ (Fresh_run exec busy _ (Fresh_init sess) es) A hA

end Queue

theorem SyncAction_returns_action_witness :
    Action.WellFormed { m_IsCreateMessage := true, m_Subject := "hi" } = true ∧
    ∃ r s1, SyncAction stubExecutor 1
        (run stubExecutor 1 (init ())
          [Event.asyncAction { m_IsSendMessage := true, m_To := "b@x.com" }])
        { m_IsCreateMessage := true, m_Subject := "hi" } = Except.ok (r, s1) ∧
      r.m_Action = { m_IsCreateMessage := true, m_Subject := "hi" } :=
  ⟨by decide, SyncAction_returns_action stubExecutor 1 () _ _ (by decide)⟩

/-- The default-constructed Action has none of the three discriminants true,
so it is not the case that exactly one of them is. -/
theorem Action_default_no_discriminant :
    ({} : Action).m_IsSendMessage = false ∧ ({} : Action).m_IsCreateMessage = false ∧
    ({} : Action).m_IsSendCreatedMessage = false ∧
    ({} : Action).activeDiscriminants ≠ 1 := by
  decide

/-- C5, amended: the default-constructed Action has no discriminant active,
and an Action with none active, such as the default-constructed one, has
exactly one active after any one of the three booleans is set to true. -/
theorem Action_one_discriminant_after_set (a : Action) (h : a.activeDiscriminants = 0) :
    ({} : Action).activeDiscriminants = 0 ∧
    ({ a with m_IsSendMessage := true } : Action).activeDiscriminants = 1 ∧
    ({ a with m_IsCreateMessage := true } : Action).activeDiscriminants = 1 ∧
    ({ a with m_IsSendCreatedMessage := true } : Action).activeDiscriminants = 1 := by
  refine ⟨by decide, ?_⟩
  unfold Action.activeDiscriminants at h ⊢
  cases h1 : a.m_IsSendMessage <;> cases h2 : a.m_IsCreateMessage <;>
    cases h3 : a.m_IsSendCreatedMessage <;> simp [h1, h2, h3] at h ⊢

theorem Action_one_discriminant_after_set_witness :
    ({} : Action).activeDiscriminants = 0 ∧
    (({} : Action).activeDiscriminants = 0 ∧
     ({ ({} : Action) with m_IsSendMessage := true } : Action).activeDiscriminants = 1 ∧
     ({ ({} : Action) with m_IsCreateMessage := true } : Action).activeDiscriminants = 1 ∧
     ({ ({} : Action) with m_IsSendCreatedMessage := true } : Action).activeDiscriminants = 1) :=
  ⟨by decide, Action_one_discriminant_after_set {} (by decide)⟩

/-- C10: a default-constructed Result has status `SmtpStatusFailed`, an empty
message and the default-constructed Action, whose three discriminants and
`m_FormatFlowed` are false, whose `m_ComposeDraftUid` is 0 and whose string
members are empty. -/
theorem Result_default :
    ({} : Result).m_SmtpStatus = SmtpStatus.SmtpStatusFailed ∧
    ({} : Result).m_Message = "" ∧
    ({} : Result).m_Action = ({} : Action) ∧
    ({} : Action) =
      { m_IsSendMessage := false, m_IsCreateMessage := false, m_IsSendCreatedMessage := false,
        m_From := "", m_To := "", m_Cc := "", m_Bcc := "", m_Att := "", m_Subject := "",
        m_Body := "", m_HtmlBody := "", m_RefMsgId := "", m_ComposeTempDirectory := "",
        m_ComposeDraftUid := 0, m_CreatedMsg := "", m_FormatFlowed := false } :=
  ⟨rfl, rfl, rfl, rfl⟩

end SmtpManager
